import Mathlib

/-!
Shallow embedding of `src/auto_reserve.py` (slot parsing, eligibility
filtering, deduplication and the notification decision).  Machine
integers are modelled as `Int` (Python integers are unbounded), instants
as integer seconds, and fallible operations as `Option`.
-/

set_option autoImplicit false

/-! ### Calendar arithmetic (Python `datetime` semantics) -/

/-- Proleptic-Gregorian leap-year test, as in Python `calendar.isleap`. -/
def isLeap (y : Int) : Bool :=
  (y % 4 == 0 && y % 100 != 0) || y % 400 == 0

/-- Number of days in month `m` of year `y` (months outside 1..12 are
rejected upstream by `validDateTime`). -/
def daysInMonth (y m : Int) : Int :=
  if m = 2 then (if isLeap y then 29 else 28)
  else if m = 4 ∨ m = 6 ∨ m = 9 ∨ m = 11 then 30
  else 31

/-- Cumulative day count before month `m` in a non-leap year. -/
def cumDaysBeforeMonth (m : Int) : Int :=
  if m ≤ 1 then 0
  else if m = 2 then 31
  else if m = 3 then 59
  else if m = 4 then 90
  else if m = 5 then 120
  else if m = 6 then 151
  else if m = 7 then 181
  else if m = 8 then 212
  else if m = 9 then 243
  else if m = 10 then 273
  else if m = 11 then 304
  else 334

/-- Days before month `m` in year `y`, with the leap-day adjustment. -/
def daysBeforeMonth (y m : Int) : Int :=
  cumDaysBeforeMonth m + (if 2 < m ∧ isLeap y then 1 else 0)

/-- Python `datetime.toordinal`: day number of the proleptic Gregorian
calendar, with 0001-01-01 being day 1. -/
def toordinal (y m d : Int) : Int :=
  365 * (y - 1) + (y - 1).fdiv 4 - (y - 1).fdiv 100 + (y - 1).fdiv 400
    + daysBeforeMonth y m + d

/-- Python `datetime.weekday`: Monday is 0 and Sunday is 6.
0001-01-01 (ordinal 1) was a Monday. -/
def pyWeekday (y m d : Int) : Int :=
  (toordinal y m d + 6) % 7

/-- Validity check performed by the `datetime(year, month, day, hour,
minute)` constructor: it raises `ValueError` outside these ranges. -/
def validDateTime (y m d h mi : Int) : Bool :=
  1 ≤ y && y ≤ 9999 && 1 ≤ m && m ≤ 12 && 1 ≤ d && d ≤ daysInMonth y m &&
    0 ≤ h && h ≤ 23 && 0 ≤ mi && mi ≤ 59

/-! ### Python `int(string)` -/

/-- Digit run of a Python integer literal after the sign: nonempty digits,
with single underscores allowed only between two digits. -/
def pyDigitsAux : List Char → Int → Option Int
  | [], acc => some acc
  | '_' :: c :: rest, acc =>
      if c.isDigit then pyDigitsAux (c :: rest) acc else none
  | ['_'], _ => none
  | c :: rest, acc =>
      if c.isDigit then pyDigitsAux rest (acc * 10 + ((c.toNat : Int) - 48))
      else none

/-- Unsigned digit string: must start with a digit. -/
def pyDigits : List Char → Option Int
  | [] => none
  | c :: rest =>
      if c.isDigit then pyDigitsAux (c :: rest) 0 else none

/-- Python `int(s)` on a character list: strips surrounding whitespace,
accepts an optional single sign, then a digit run; `none` models
`ValueError`. -/
def pyInt (s : List Char) : Option Int :=
  let cs := (s.dropWhile Char.isWhitespace).reverse.dropWhile
      Char.isWhitespace |>.reverse
  match cs with
  | '+' :: rest => pyDigits rest
  | '-' :: rest => (pyDigits rest).map Int.neg
  | _ => pyDigits cs

/-- Python `str.split(sep)` with a one-character separator: the pieces
between occurrences of `sep`, empty pieces included. -/
def pySplit (sep : Char) : List Char → List Char → List (List Char)
  | [], acc => [acc.reverse]
  | c :: rest, acc =>
    if c = sep then acc.reverse :: pySplit sep rest []
    else pySplit sep rest (c :: acc)

/-! ### Data model -/

/-- One scraped slot, the dictionary built by `find_status1_elements`. -/
structure SlotRecord where
  year : Int
  month : Int
  day : Int
  hour : Int
  minute : Int
  weekday_val : Int
  formatted_str : String
deriving DecidableEq, Repr

/-- The four `data-*` attributes read from one page element;
`get_attribute` yields `None` when the attribute is absent. -/
structure RawTuple where
  data_yoyaku : Option String
  data_date : Option String
  data_time : Option String
  data_week : Option String
deriving DecidableEq, Repr

/-- Python truthiness of an attribute value: `None` and `""` are falsy. -/
def attrFalsy : Option String → Bool
  | none => true
  | some s => s = ""

/-! ### Slot parser (`find_status1_elements`, lines 96-124) -/

/-- Parse one raw tuple into a slot dictionary; `none` models the
per-element `except` branch that skips the element. -/
def parseSlot (t : RawTuple) : Option SlotRecord :=
  match t.data_yoyaku, t.data_date, t.data_time, t.data_week with
  | some yo, some da, some ti, some we =>
    if attrFalsy (some yo) || attrFalsy (some ti) || attrFalsy (some da)
        || attrFalsy (some we) then none
    else
      match pyInt (yo.data.take 4), pyInt ((yo.data.drop 4).take 2),
          pyInt (yo.data.drop 6) with
      | some year, some month, some day =>
        match pySplit ':' ti.data [] with
        | [hs, ms] =>
          match pyInt hs, pyInt ms with
          | some hour, some minute =>
            if validDateTime year month day hour minute then
              some { year := year, month := month, day := day,
                     hour := hour, minute := minute,
                     weekday_val := pyWeekday year month day,
                     formatted_str := da ++ we ++ " " ++ ti }
            else none
          | _, _ => none
        | _ => none
      | _, _, _ => none
  | _, _, _, _ => none

/-- The per-page loop of `find_status1_elements`: append the parsed
record when parsing succeeds, skip the element otherwise. -/
def find_status1_elements : List RawTuple → List SlotRecord
  | [] => []
  | t :: ts =>
    match parseSlot t with
    | some r => r :: find_status1_elements ts
    | none => find_status1_elements ts

/-! ### Eligibility filter (`should_notify_for_slot`, lines 132-170) -/

/-- Instant of the slot, `datetime(year, month, day, hour, minute)`,
measured in seconds. -/
def slotInstant (r : SlotRecord) : Int :=
  toordinal r.year r.month r.day * 86400 + r.hour * 3600 + r.minute * 60

/-- `timedelta(weeks=2)` in seconds. -/
def twoWeeksSecs : Int := 14 * 86400

/-- `should_notify_for_slot` with the `datetime.now()` reading made an
explicit argument `now` (seconds). -/
def should_notify_for_slot (now : Int) (r : SlotRecord) : Bool :=
  let two_weeks_from_now := now + twoWeeksSecs
  if slotInstant r > two_weeks_from_now then false
  else if r.weekday_val = 5 ∨ r.weekday_val = 6 then true
  else if 0 ≤ r.weekday_val ∧ r.weekday_val ≤ 4 ∧ r.hour ≥ 19 then true
  else if r.weekday_val = 2 ∧ r.hour = 13 then true
  else false

/-! ### Notification pipeline (`check_for_available_slots` lines 204-216,
`send_slack_notification` lines 218-251) -/

/-- Environment-sourced notifier configuration. -/
structure Config where
  slack_token : Option String
  slack_channel : Option String
deriving DecidableEq, Repr

/-- The filtering loop of `check_for_available_slots`: each call of
`should_notify_for_slot` performs its own `datetime.now()`, so slot
number `k` is judged against clock reading `clock k`. -/
def filterStep (clock : Nat → Int) : List SlotRecord → Nat → List String
  | [], _ => []
  | r :: rs, k =>
    if should_notify_for_slot (clock k) r
    then r.formatted_str :: filterStep clock rs (k + 1)
    else filterStep clock rs (k + 1)

/-- The duplicate-removal loop of `send_slack_notification`
(lines 230-233): keep an element only when it is not already present. -/
def unique_filtered_results (results : List String) : List String :=
  results.foldl (fun acc r => if r ∈ acc then acc else acc ++ [r]) []

/-- Message header (site URL and localized heading, line 240). -/
def messageHeader : String :=
  "https://www.e-license.jp/el31/mSg1DWxRvAI-brGQYS-1OA==\n予約可能時間（フィルタ条件合致）：\n"

/-- Message body built at lines 240-242. -/
def buildMessage (unique : List String) : String :=
  unique.foldl (fun msg r => msg ++ "- " ++ r ++ "\n") messageHeader

/-- `send_slack_notification`: `none` models returning without calling
`chat_postMessage`; `some msg` models invoking the notifier with `msg`. -/
def send_slack_notification (cfg : Config) (results : List String) :
    Option String :=
  if attrFalsy cfg.slack_token || attrFalsy cfg.slack_channel then none
  else
    let unique := unique_filtered_results results
    if unique = [] then none
    else some (buildMessage unique)

/-- The post-fetch part of `check_for_available_slots` (lines 204-216):
filter the aggregated records and decide whether the notifier runs. -/
def check_for_available_slots (clock : Nat → Int) (cfg : Config)
    (slots : List SlotRecord) : Option String :=
  if slots = [] then none
  else
    let labels := filterStep clock slots 0
    if labels = [] then none
    else send_slack_notification cfg labels

/-! ### Concrete fixtures used by witnesses and counterexamples -/

/-- Midnight of Saturday 2025-06-28, in seconds. -/
def nowT0 : Int := toordinal 2025 6 28 * 86400

/-- A Saturday slot (2025-06-28 10:00). -/
def satA : SlotRecord := ⟨2025, 6, 28, 10, 0, 5, "A"⟩

/-- A Sunday slot (2025-06-29 10:00). -/
def sunB : SlotRecord := ⟨2025, 6, 29, 10, 0, 6, "B"⟩

/-- A Tuesday 18:00 slot (2025-06-24). -/
def tueR : SlotRecord := ⟨2025, 6, 24, 18, 0, 1, "T"⟩

/-- A configuration with both notifier credentials present. -/
def cfgC1 : Config := ⟨some "t", some "c"⟩

/-- A clock that always answers `nowT0`. -/
def clockA : Nat → Int := fun _ => nowT0

/-- A clock that agrees with `clockA` on its first reading only. -/
def clockB : Nat → Int := fun k => if k = 0 then nowT0 else nowT0 - 100000000

/-- A clock that agrees with `clockA` on its first two readings. -/
def clockW : Nat → Int := fun k => if k < 2 then nowT0 else 0

/-! ### Theorems -/

/-- C2: a slot whose instant is exactly `now + 14 days` is eligible
whenever its day-of-week rule matches, and a slot at
`now + 14 days + 1 minute` or later is never eligible. -/
theorem lookahead_boundary (now : Int) (r : SlotRecord) :
    (slotInstant r = now + twoWeeksSecs →
      ((r.weekday_val = 5 ∨ r.weekday_val = 6) ∨
       (0 ≤ r.weekday_val ∧ r.weekday_val ≤ 4 ∧ 19 ≤ r.hour) ∨
       (r.weekday_val = 2 ∧ r.hour = 13)) →
      should_notify_for_slot now r = true) ∧
    (now + twoWeeksSecs + 60 ≤ slotInstant r →
      should_notify_for_slot now r = false) := by
  constructor
  · intro he hd
    simp only [should_notify_for_slot]
    split_ifs with h1 h2 h3 h4
    · exact absurd h1 (by omega)
    · rfl
    · rfl
    · rfl
    · rcases hd with h | h | h
      · exact absurd h h2
      · exact absurd h h3
      · exact absurd h h4
  · intro hl
    simp only [should_notify_for_slot]
    split_ifs with h1 h2 h3 h4 <;> first | rfl | exact absurd hl (by omega)

theorem lookahead_boundary_witness :
    should_notify_for_slot nowT0 ⟨2025, 7, 12, 0, 0, 5, "S"⟩ = true ∧
    should_notify_for_slot nowT0 ⟨2025, 7, 12, 0, 1, 5, "S"⟩ = false :=
  ⟨(lookahead_boundary nowT0 ⟨2025, 7, 12, 0, 0, 5, "S"⟩).1 (by decide)
      (Or.inl (Or.inl rfl)),
   (lookahead_boundary nowT0 ⟨2025, 7, 12, 0, 1, 5, "S"⟩).2 (by decide)⟩

/-- C3: for a slot whose instant is not after `now + 14 days`, the filter
answers `true` exactly when the weekday is 5 or 6, or the weekday is 0..4
and the hour is at least 19, or the weekday is 2 and the hour is 13. -/
theorem day_rule_partition (now : Int) (r : SlotRecord)
    (h : slotInstant r ≤ now + twoWeeksSecs) :
    should_notify_for_slot now r = true ↔
      ((r.weekday_val = 5 ∨ r.weekday_val = 6) ∨
       (0 ≤ r.weekday_val ∧ r.weekday_val ≤ 4 ∧ 19 ≤ r.hour) ∨
       (r.weekday_val = 2 ∧ r.hour = 13)) := by
  simp only [should_notify_for_slot]
  split_ifs with h1 h2 h3 h4
  · exact absurd h1 (by omega)
  · exact iff_of_true rfl (Or.inl h2)
  · exact iff_of_true rfl (Or.inr (Or.inl h3))
  · exact iff_of_true rfl (Or.inr (Or.inr h4))
  · refine iff_of_false not_false ?_
    rintro (hd | hd | hd)
    · exact h2 hd
    · exact h3 hd
    · exact h4 hd

theorem day_rule_partition_witness :
    should_notify_for_slot nowT0 satA = true ↔
      ((satA.weekday_val = 5 ∨ satA.weekday_val = 6) ∨
       (0 ≤ satA.weekday_val ∧ satA.weekday_val ≤ 4 ∧ 19 ≤ satA.hour) ∨
       (satA.weekday_val = 2 ∧ satA.hour = 13)) :=
  day_rule_partition nowT0 satA (by decide)

/-- C10: the lookahead gate has no lower bound: any slot at or before
`now + 14 days`, arbitrarily far in the past, is eligible whenever its
day-of-week rule matches; in particular a Saturday slot dated a year
before `now` is eligible. -/
theorem no_lower_time_bound :
    (∀ (now : Int) (r : SlotRecord), slotInstant r ≤ now + twoWeeksSecs →
      ((r.weekday_val = 5 ∨ r.weekday_val = 6) ∨
       (0 ≤ r.weekday_val ∧ r.weekday_val ≤ 4 ∧ 19 ≤ r.hour) ∨
       (r.weekday_val = 2 ∧ r.hour = 13)) →
      should_notify_for_slot now r = true) ∧
    should_notify_for_slot (toordinal 2026 6 27 * 86400) satA = true := by
  constructor
  · intro now r h hd
    simp only [should_notify_for_slot]
    split_ifs with h1 h2 h3 h4
    · exact absurd h1 (by omega)
    · rfl
    · rfl
    · rfl
    · rcases hd with hx | hx | hx
      · exact absurd hx h2
      · exact absurd hx h3
      · exact absurd hx h4
  · decide

/-- C8: when no slot passes the filter, the notifier is never invoked:
the run's notification decision is `none`. -/
theorem empty_result_suppression (clock : Nat → Int) (cfg : Config)
    (slots : List SlotRecord) (h : filterStep clock slots 0 = []) :
    check_for_available_slots clock cfg slots = none := by
  unfold check_for_available_slots
  split_ifs with h1
  · rfl
  · simp only [h, ite_true]

theorem empty_result_suppression_witness :
    check_for_available_slots clockA cfgC1 [tueR] = none :=
  empty_result_suppression clockA cfgC1 [tueR] (by decide)

/-- C9: when the notifier token or channel is absent the notification
step returns without invoking the notifier. -/
theorem missing_config_no_send (cfg : Config) (results : List String)
    (h : cfg.slack_token = none ∨ cfg.slack_channel = none) :
    send_slack_notification cfg results = none := by
  unfold send_slack_notification
  rcases h with h | h <;> simp [h, attrFalsy]

theorem missing_config_no_send_witness :
    send_slack_notification ⟨none, some "c"⟩ ["x"] = none :=
  missing_config_no_send ⟨none, some "c"⟩ ["x"] (Or.inl rfl)

/-- The filtered labels are unchanged when the two clocks agree on every
reading consumed for the remaining slots. -/
theorem filterStep_clock_congr (clock clock' : Nat → Int) :
    ∀ (slots : List SlotRecord) (n : Nat),
      (∀ k, k < slots.length → clock (n + k) = clock' (n + k)) →
      filterStep clock slots n = filterStep clock' slots n
  | [], _, _ => rfl
  | r :: rs, n, h => by
    have h0 : clock n = clock' n := by simpa using h 0 (by simp)
    have ih := filterStep_clock_congr clock clock' rs (n + 1) (fun k hk => by
      have hx := h (k + 1) (by simpa using Nat.succ_lt_succ hk)
      have he : n + (k + 1) = n + 1 + k := by omega
      rw [he] at hx
      exact hx)
    simp only [filterStep, h0, ih]

/-- C1 fails on the code: two clocks that agree on the first reading can
still produce different run outputs, because `datetime.now()` is read
again for every slot. -/
theorem single_now_snapshot_counterexample :
    clockA 0 = clockB 0 ∧
    check_for_available_slots clockA cfgC1 [satA, sunB] ≠
      check_for_available_slots clockB cfgC1 [satA, sunB] := by decide

/-- C1 amended: `now` is read once per slot, not once per run; slot
number `k` is judged against reading `k`, and the run's output depends
only on the first `n` readings for `n` slots: clocks that agree on those
readings give identical output. -/
theorem now_per_slot (clock clock' : Nat → Int) (cfg : Config)
    (slots : List SlotRecord)
    (h : ∀ k, k < slots.length → clock k = clock' k) :
    check_for_available_slots clock cfg slots =
      check_for_available_slots clock' cfg slots := by
  have hf : filterStep clock slots 0 = filterStep clock' slots 0 :=
    filterStep_clock_congr clock clock' slots 0
      (fun k hk => by simpa using h k hk)
  unfold check_for_available_slots
  rw [hf]

theorem now_per_slot_witness :
    check_for_available_slots clockA cfgC1 [satA, sunB] =
      check_for_available_slots clockW cfgC1 [satA, sunB] :=
  now_per_slot clockA clockW cfgC1 [satA, sunB] (by decide)

/-- The parser output is never longer than its input. -/
theorem find_status1_length_le :
    ∀ l : List RawTuple, (find_status1_elements l).length ≤ l.length
  | [] => Nat.le_refl 0
  | t :: ts => by
    simp only [find_status1_elements]
    cases hp : parseSlot t
    · exact Nat.le_succ_of_le (find_status1_length_le ts)
    · simpa using Nat.succ_le_succ (find_status1_length_le ts)

/-- Every parser output record comes from a successfully parsed input
tuple; malformed tuples contribute nothing and no default is inserted. -/
theorem find_status1_mem :
    ∀ (l : List RawTuple) (r : SlotRecord), r ∈ find_status1_elements l →
      ∃ t ∈ l, parseSlot t = some r
  | [], r, h => absurd h (List.not_mem_nil r)
  | t :: ts, r, h => by
    simp only [find_status1_elements] at h
    cases hp : parseSlot t with
    | some r0 =>
      rw [hp] at h
      rcases List.mem_cons.mp h with he | hm
      · exact ⟨t, List.mem_cons_self t ts, by rw [hp, he]⟩
      · obtain ⟨u, hu, hpu⟩ := find_status1_mem ts r hm
        exact ⟨u, List.mem_cons_of_mem t hu, hpu⟩
    | none =>
      rw [hp] at h
      obtain ⟨u, hu, hpu⟩ := find_status1_mem ts r h
      exact ⟨u, List.mem_cons_of_mem t hu, hpu⟩

/-- The parser distributes over concatenation, so the relative order of
successful parses follows the input order. -/
theorem find_status1_append :
    ∀ xs ys : List RawTuple,
      find_status1_elements (xs ++ ys) =
        find_status1_elements xs ++ find_status1_elements ys
  | [], _ => rfl
  | t :: ts, ys => by
    simp only [List.cons_append, find_status1_elements]
    cases hp : parseSlot t <;> simp [find_status1_append ts ys]

/-- The parser loop is `List.filterMap` by the one-element parse. -/
theorem find_status1_eq_filterMap :
    ∀ l : List RawTuple, find_status1_elements l = l.filterMap parseSlot
  | [] => rfl
  | t :: ts => by
    simp only [find_status1_elements, List.filterMap_cons]
    cases hp : parseSlot t <;> simp [find_status1_eq_filterMap ts]

/-- C5: the parser is total (a Lean function, never an exception): its
output length is at most the input length, every output record arises
from an input tuple that parses successfully (malformed tuples are
dropped, never defaulted), and order is preserved: the parser maps
concatenation to concatenation, a skipped tuple contributes the empty
list, and the whole loop is `List.filterMap` of the one-element parse. -/
theorem parser_total_with_skip :
    (∀ l : List RawTuple, (find_status1_elements l).length ≤ l.length) ∧
    (∀ (l : List RawTuple) (r : SlotRecord), r ∈ find_status1_elements l →
      ∃ t ∈ l, parseSlot t = some r) ∧
    (∀ xs ys : List RawTuple,
      find_status1_elements (xs ++ ys) =
        find_status1_elements xs ++ find_status1_elements ys) ∧
    (∀ t : RawTuple, parseSlot t = none → find_status1_elements [t] = []) ∧
    (∀ l : List RawTuple, find_status1_elements l = l.filterMap parseSlot) :=
  ⟨find_status1_length_le, find_status1_mem, find_status1_append,
   fun t h => by simp [find_status1_elements, h],
   find_status1_eq_filterMap⟩

/-- Specification-side deduplication (spec 4.3 step 3): keep the first
occurrence of each label and drop every later duplicate, preserving the
order of the kept elements. -/
def dedupKeepingFirst : List String → List String
  | [] => []
  | x :: xs => x :: dedupKeepingFirst (xs.filter (fun y => decide (y ≠ x)))
termination_by l => l.length
decreasing_by
  simp only [List.length_cons]
  exact Nat.lt_succ_of_le (List.length_filter_le _ _)

/-- Generalized accumulator form of the duplicate-removal loop. -/
theorem dedup_foldl_eq :
    ∀ (l acc : List String),
      List.foldl (fun acc r => if r ∈ acc then acc else acc ++ [r]) acc l =
        acc ++ dedupKeepingFirst (l.filter (fun y => decide (y ∉ acc)))
  | [], acc => by simp [dedupKeepingFirst]
  | r :: rs, acc => by
    by_cases hr : r ∈ acc
    · have ih := dedup_foldl_eq rs acc
      simp only [List.foldl_cons, if_pos hr, List.filter_cons]
      simpa [hr] using ih
    · have ih := dedup_foldl_eq rs (acc ++ [r])
      simp only [List.foldl_cons, if_neg hr, List.filter_cons]
      rw [ih]
      have hfil :
          rs.filter (fun y => decide (y ∉ acc ++ [r])) =
            (rs.filter (fun y => decide (y ∉ acc))).filter
              (fun y => decide (y ≠ r)) := by
        rw [List.filter_filter]
        refine List.filter_congr ?_
        intro y _
        simp [List.mem_append, not_or, Bool.and_comm]
      rw [hfil]
      simp [dedupKeepingFirst, hr]

/-- The loop in `send_slack_notification` computes exactly the
keep-first deduplication. -/
theorem unique_eq_dedupKeepingFirst (l : List String) :
    unique_filtered_results l = dedupKeepingFirst l := by
  unfold unique_filtered_results
  rw [dedup_foldl_eq l []]
  simp

/-- Membership is unchanged by keep-first deduplication. -/
theorem mem_dedupKeepingFirst :
    ∀ (l : List String) (a : String), a ∈ dedupKeepingFirst l ↔ a ∈ l
  | [], a => by simp [dedupKeepingFirst]
  | x :: xs, a => by
    simp only [dedupKeepingFirst, List.mem_cons]
    rw [mem_dedupKeepingFirst (xs.filter (fun y => decide (y ≠ x))) a]
    by_cases hax : a = x <;> simp [List.mem_filter, hax]
termination_by l => l.length
decreasing_by
  simp only [List.length_cons]
  exact Nat.lt_succ_of_le (List.length_filter_le _ _)

/-- Keep-first deduplication output is duplicate-free. -/
theorem nodup_dedupKeepingFirst :
    ∀ l : List String, (dedupKeepingFirst l).Nodup
  | [] => by simp [dedupKeepingFirst]
  | x :: xs => by
    simp only [dedupKeepingFirst, List.nodup_cons]
    refine ⟨?_, nodup_dedupKeepingFirst _⟩
    intro hx
    have hm := (mem_dedupKeepingFirst _ _).1 hx
    simp [List.mem_filter] at hm
termination_by l => l.length
decreasing_by
  simp only [List.length_cons]
  exact Nat.lt_succ_of_le (List.length_filter_le _ _)

/-- Keep-first deduplication output is a sublist of the input, so kept
elements appear in their original relative order. -/
theorem sublist_dedupKeepingFirst :
    ∀ l : List String, List.Sublist (dedupKeepingFirst l) l
  | [] => by simp [dedupKeepingFirst]
  | x :: xs => by
    simp only [dedupKeepingFirst]
    exact List.Sublist.cons₂ x
      ((sublist_dedupKeepingFirst _).trans (List.filter_sublist _))
termination_by l => l.length
decreasing_by
  simp only [List.length_cons]
  exact Nat.lt_succ_of_le (List.length_filter_le _ _)

/-- C6: deduplication is by equality of `label` alone: the loop equals
the keep-first-occurrence deduplication (so each repeated label is kept
only at its first occurrence and the order of distinct labels is
preserved as a sublist of the input), the output has no duplicates, and
each label present in the input appears exactly once. -/
theorem dedup_by_label (l : List String) :
    unique_filtered_results l = dedupKeepingFirst l ∧
    (unique_filtered_results l).Nodup ∧
    List.Sublist (unique_filtered_results l) l ∧
    ∀ a : String,
      (unique_filtered_results l).count a = if a ∈ l then 1 else 0 := by
  have he := unique_eq_dedupKeepingFirst l
  refine ⟨he, ?_, ?_, ?_⟩
  · rw [he]; exact nodup_dedupKeepingFirst l
  · rw [he]; exact sublist_dedupKeepingFirst l
  · intro a
    rw [he]
    by_cases ha : a ∈ l
    · rw [if_pos ha]
      exact List.count_eq_one_of_mem (nodup_dedupKeepingFirst l)
        ((mem_dedupKeepingFirst l a).2 ha)
    · rw [if_neg ha]
      exact List.count_eq_zero_of_not_mem
        (fun hc => ha ((mem_dedupKeepingFirst l a).1 hc))

/-- A raw tuple that parses successfully (2025-06-27 09:00, a Friday). -/
def rawGood : RawTuple :=
  ⟨some "20250627", some "6月27日", some "9:00", some "(金)"⟩

/-- A successful parse determines the numeric fields from the compact
date code alone, and the weekday field is computed from the date. -/
theorem parseSlot_fields (t : RawTuple) (r : SlotRecord)
    (h : parseSlot t = some r) :
    ∃ yo, t.data_yoyaku = some yo ∧
      pyInt (yo.data.take 4) = some r.year ∧
      pyInt ((yo.data.drop 4).take 2) = some r.month ∧
      pyInt (yo.data.drop 6) = some r.day ∧
      r.weekday_val = pyWeekday r.year r.month r.day := by
  rcases t with ⟨yo?, da?, ti?, we?⟩
  rcases yo? with _ | yo
  · exact absurd h (by simp [parseSlot])
  rcases da? with _ | da
  · exact absurd h (by simp [parseSlot])
  rcases ti? with _ | ti
  · exact absurd h (by simp [parseSlot])
  rcases we? with _ | we
  · exact absurd h (by simp [parseSlot])
  simp only [parseSlot] at h
  repeat' split at h
  all_goals first
    | exact Option.noConfusion h
    | skip
  rename_i hnf xa xb xc year month day heqY heqM heqD xd hs ms heqS xe xf
    hour minute heqH heqMin hv
  injection h with h
  subst h
  exact ⟨yo, rfl, heqY, heqM, heqD, rfl⟩

/-- C7: the `weekday` field of every parsed record equals the Gregorian
weekday computed from its (year, month, day) with Monday 0, is
independent of the scraped weekday text, and 2025-06-27 gives 4. -/
theorem weekday_from_date :
    (∀ (t : RawTuple) (r : SlotRecord), parseSlot t = some r →
      r.weekday_val = pyWeekday r.year r.month r.day) ∧
    (∀ (t : RawTuple) (w₁ w₂ : Option String) (r₁ r₂ : SlotRecord),
      parseSlot ⟨t.data_yoyaku, t.data_date, t.data_time, w₁⟩ = some r₁ →
      parseSlot ⟨t.data_yoyaku, t.data_date, t.data_time, w₂⟩ = some r₂ →
      r₁.weekday_val = r₂.weekday_val) ∧
    pyWeekday 2025 6 27 = 4 := by
  refine ⟨?_, ?_, by decide⟩
  · intro t r h
    obtain ⟨yo, _, _, _, _, hw⟩ := parseSlot_fields t r h
    exact hw
  · intro t w₁ w₂ r₁ r₂ h₁ h₂
    obtain ⟨yo₁, hyo₁, hY₁, hM₁, hD₁, hw₁⟩ := parseSlot_fields _ _ h₁
    obtain ⟨yo₂, hyo₂, hY₂, hM₂, hD₂, hw₂⟩ := parseSlot_fields _ _ h₂
    have hyo : yo₁ = yo₂ := by
      have e : some yo₁ = some yo₂ := by
        rw [← hyo₁, ← hyo₂]
      exact Option.some.inj e
    subst hyo
    have hy : r₁.year = r₂.year := by
      have := hY₁.symm.trans hY₂
      exact Option.some.inj this
    have hm : r₁.month = r₂.month := by
      have := hM₁.symm.trans hM₂
      exact Option.some.inj this
    have hd : r₁.day = r₂.day := by
      have := hD₁.symm.trans hD₂
      exact Option.some.inj this
    rw [hw₁, hw₂, hy, hm, hd]

theorem weekday_from_date_witness :
    (⟨2025, 6, 27, 9, 0, 4, "6月27日(金) 9:00"⟩ : SlotRecord).weekday_val =
      pyWeekday 2025 6 27 :=
  weekday_from_date.1 rawGood ⟨2025, 6, 27, 9, 0, 4, "6月27日(金) 9:00"⟩
    (by decide)

/-- One of the four scraped fields is absent or empty (Python falsy),
in the order tested by the source. -/
def missingOrEmptyField (t : RawTuple) : Bool :=
  attrFalsy t.data_yoyaku || attrFalsy t.data_time || attrFalsy t.data_date
    || attrFalsy t.data_week

/-- Decomposing the compact date code fails: one of the three slices
(chars 0..3, 4..5, 6..end) does not parse as an integer. -/
def dateCodeUnparsable (yo : String) : Bool :=
  (pyInt (yo.data.take 4)).isNone || (pyInt ((yo.data.drop 4).take 2)).isNone
    || (pyInt (yo.data.drop 6)).isNone

/-- The time string does not split on the separator into exactly an hour
integer and a minute integer. -/
def timeUnsplittable (ti : String) : Bool :=
  match pySplit ':' ti.data [] with
  | [hs, ms] => (pyInt hs).isNone || (pyInt ms).isNone
  | _ => true

/-- C4 as stated is false on the code: the compact date code is not
required to be exactly 8 digits.  This 7-character code still yields a
record (year from the first 4 chars, month from the next 2, day from the
rest). -/
theorem parse_eight_digit_counterexample :
    ("2025062".length ≠ 8) ∧
    parseSlot ⟨some "2025062", some "6月2日", some "9:00", some "(月)"⟩ =
      some ⟨2025, 6, 2, 9, 0, 0, "6月2日(月) 9:00"⟩ := by
  refine ⟨by decide, by decide⟩

/-- C4 amended: the parser produces no record whenever any of the four
fields is absent or empty, whenever any slice of the date code fails to
parse as an integer (an 8-digit shape is not itself checked), whenever
the time string does not split into exactly an hour and a minute
integer, or whenever the resulting date-time is invalid. -/
theorem parse_skip_conditions (t : RawTuple) :
    (missingOrEmptyField t = true → parseSlot t = none) ∧
    (∀ yo, t.data_yoyaku = some yo → dateCodeUnparsable yo = true →
      parseSlot t = none) ∧
    (∀ ti, t.data_time = some ti → timeUnsplittable ti = true →
      parseSlot t = none) ∧
    (∀ yo ti y mo d h mi, t.data_yoyaku = some yo → t.data_time = some ti →
      pyInt (yo.data.take 4) = some y →
      pyInt ((yo.data.drop 4).take 2) = some mo →
      pyInt (yo.data.drop 6) = some d →
      (∃ hs ms, pySplit ':' ti.data [] = [hs, ms] ∧
        pyInt hs = some h ∧ pyInt ms = some mi) →
      validDateTime y mo d h mi = false →
      parseSlot t = none) := by
  rcases t with ⟨yo?, da?, ti?, we?⟩
  rcases yo? with _ | yo
  · have hp : parseSlot ⟨none, da?, ti?, we?⟩ = none := by simp [parseSlot]
    exact ⟨fun _ => hp, fun _ _ _ => hp, fun _ _ _ => hp,
      fun _ _ _ _ _ _ _ _ _ _ _ _ _ _ => hp⟩
  rcases da? with _ | da
  · have hp : parseSlot ⟨some yo, none, ti?, we?⟩ = none := by
      simp [parseSlot]
    exact ⟨fun _ => hp, fun _ _ _ => hp, fun _ _ _ => hp,
      fun _ _ _ _ _ _ _ _ _ _ _ _ _ _ => hp⟩
  rcases ti? with _ | ti
  · have hp : parseSlot ⟨some yo, some da, none, we?⟩ = none := by
      simp [parseSlot]
    exact ⟨fun _ => hp, fun _ _ _ => hp, fun _ _ _ => hp,
      fun _ _ _ _ _ _ _ _ _ _ _ _ _ _ => hp⟩
  rcases we? with _ | we
  · have hp : parseSlot ⟨some yo, some da, some ti, none⟩ = none := by
      simp [parseSlot]
    exact ⟨fun _ => hp, fun _ _ _ => hp, fun _ _ _ => hp,
      fun _ _ _ _ _ _ _ _ _ _ _ _ _ _ => hp⟩
  refine ⟨?_, ?_, ?_, ?_⟩
  · intro hm
    simp only [missingOrEmptyField] at hm
    simp only [parseSlot]
    split
    · rfl
    · rename_i hc
      exact absurd hm hc
  · intro yo' hyo hbad
    injection hyo with hyo
    subst hyo
    simp only [parseSlot]
    split
    · rfl
    · simp only [dateCodeUnparsable, Bool.or_eq_true,
        Option.isNone_iff_eq_none] at hbad
      cases h1 : pyInt (yo.data.take 4) <;>
        cases h2 : pyInt ((yo.data.drop 4).take 2) <;>
        cases h3 : pyInt (yo.data.drop 6) <;> simp_all
  · intro ti' hti hbad
    injection hti with hti
    subst hti
    simp only [parseSlot]
    split
    · rfl
    · cases h1 : pyInt (yo.data.take 4) <;>
        cases h2 : pyInt ((yo.data.drop 4).take 2) <;>
        cases h3 : pyInt (yo.data.drop 6) <;> try rfl
      simp only [timeUnsplittable] at hbad
      rcases hsp : pySplit ':' ti.data [] with _ | ⟨hs0, _ | ⟨ms0, _ | ⟨c0, cs0⟩⟩⟩
      · simp
      · simp
      · cases hh : pyInt hs0 <;> cases hm2 : pyInt ms0 <;> simp_all
      · simp
  · intro yo' ti' y mo d h mi hyo hti hY hM hD hsplit hv
    injection hyo with hyo
    injection hti with hti
    subst hyo
    subst hti
    obtain ⟨hs, ms, heqS, heqH, heqMi⟩ := hsplit
    simp only [parseSlot]
    split
    · rfl
    · rw [hY, hM, hD, heqS]
      simp [heqH, heqMi, hv]

theorem parse_skip_conditions_witness :
    parseSlot ⟨none, some "6月27日", some "9:00", some "(金)"⟩ = none :=
  (parse_skip_conditions ⟨none, some "6月27日", some "9:00", some "(金)"⟩).1
    (by decide)
